import Mathlib

/-!
Verification development for a workspace-sandboxed terminal bridge
(a Node.js server in three near-duplicate revisions: `server.js`, and two
revisions inside `src/unnamed/part_000`, called rev A (lines 1-237) and
rev B (lines 238-521) below).

The embedding is a posix model: the path separator is `'/'`, paths are
`String`s over their `List Char` data, and the Node `path` functions used
by the source (`resolve`, `join`, `basename`, `relative`) are translated
segment-by-segment.  JSON values produced by `JSON.parse` are modelled by
the inductive `JVal`; JavaScript truthiness and the `x || d` idiom are
modelled explicitly.
-/

/- ---------------- JSON values (result of JSON.parse) ---------------- -/

/-- A parsed JSON value.  Numbers are modelled as integers; the control
protocol of the source only ever compares and passes them through. -/
inductive JVal where
  | null
  | bool (b : Bool)
  | num (n : Int)
  | str (s : String)
  | arr (elems : List JVal)
  | obj (fields : List (String × JVal))

/-- JavaScript truthiness of a JSON value (`undefined` is handled by
`Option.none` at use sites). -/
def JVal.truthy : JVal → Bool
  | .null => false
  | .bool b => b
  | .num n => n != 0
  | .str s => s != ""
  | .arr _ => true
  | .obj _ => true

/-- Property lookup on a parsed JSON object; `JSON.parse` keeps the last
of duplicate keys, so the last binding wins. -/
def lookupLast : List (String × JVal) → String → Option JVal
  | [], _ => none
  | (k', v) :: rest, k =>
    match lookupLast rest k with
    | some r => some r
    | none => if k' = k then some v else none

/-- JavaScript property access `v.k` for a parsed JSON value: defined on
objects, `undefined` (`none`) on every non-object non-null value.
(Access on `null` throws; callers model that case explicitly.) -/
def JVal.getField : JVal → String → Option JVal
  | .obj fields, k => lookupLast fields k
  | _, _ => none

/-- The JavaScript expression `x || d` where `x` is a possibly-undefined
JSON value: the value itself when truthy, the default otherwise. -/
def jsOr (v : Option JVal) (d : JVal) : JVal :=
  match v with
  | some w => if w.truthy then w else d
  | none => d

/-- The JavaScript expression `x || d` for a possibly-null string
(e.g. `searchParams.get('project') || 'default'`): the empty string is
falsy and also falls back to the default. -/
def jsOrStr (x : Option String) (d : String) : String :=
  match x with
  | some s => if s = "" then d else s
  | none => d

/- ---------------- posix path toolkit ---------------- -/

/-- Split a character list at every `'/'`, keeping empty segments
(accumulator holds the current segment reversed). -/
def splitSegsAux : List Char → List Char → List String
  | [], acc => [⟨acc.reverse⟩]
  | c :: cs, acc =>
    if c = '/' then ⟨acc.reverse⟩ :: splitSegsAux cs [] else splitSegsAux cs (c :: acc)

/-- The `'/'`-separated segments of a path string, empty segments kept. -/
def splitSegs (s : String) : List String := splitSegsAux s.data []

/-- Join segments with `'/'` (inverse of `splitSegs`). -/
def joinSegs : List String → String
  | [] => ""
  | [s] => s
  | s :: rest => s ++ "/" ++ joinSegs rest

/-- One step of Node's path normalization for an absolute path: drop empty
and `"."` segments, let `".."` pop the previous segment (excess `".."`
above the root is dropped, as `path.resolve` does for absolute paths). -/
def processSeg (acc : List String) (seg : String) : List String :=
  if seg = "" ∨ seg = "." then acc
  else if seg = ".." then acc.dropLast
  else acc ++ [seg]

/-- The normalized segments of an absolute path string. -/
def absSegs (s : String) : List String := (splitSegs s).foldl processSeg []

/-- Node's normalization of an absolute posix path: resolve `"."` and
`".."` segments, collapse separators, no trailing separator. -/
def normalizeAbs (s : String) : String := "/" ++ joinSegs (absSegs s)

/-- `String.prototype.startsWith`: literal character-sequence prefix. -/
def jsStartsWith (s pre : String) : Bool := pre.data.isPrefixOf s.data

/-- `path.resolve(base, rel)` for an absolute `base`: an absolute `rel`
wins and is normalized on its own; otherwise `base` and `rel` are joined
and the result normalized. -/
def pathResolve (base rel : String) : String :=
  if jsStartsWith rel "/" then normalizeAbs rel else normalizeAbs (base ++ "/" ++ rel)

/-- `path.join(root, seg)` for an absolute `root` (the source only joins a
base-name segment onto the workspace root). -/
def pathJoin (root seg : String) : String := normalizeAbs (root ++ "/" ++ seg)

/-- `path.basename`: drop trailing separators, then take everything after
the last separator (`""` when the input is empty or all separators). -/
def pathBasename (s : String) : String :=
  let trimmed := s.data.reverse.dropWhile (fun c => c = '/')
  ⟨(trimmed.takeWhile (fun c => c ≠ '/')).reverse⟩

/-- Drop the leading `'/'` characters of a string
(the JavaScript `String(x).replace(/^\/+/, '')`). -/
def stripLeadingSlashes (s : String) : String := ⟨s.data.dropWhile (fun c => c = '/')⟩

/-- Node's segment-wise longest common prefix length, used by
`path.relative`. -/
def commonLen : List String → List String → Nat
  | a :: as, b :: bs => if a = b then commonLen as bs + 1 else 0
  | _, _ => 0

/-- `path.relative(from, to)` for absolute posix arguments: both sides are
normalized, the common segment prefix is removed, and one `".."` is
emitted for each remaining segment of `from`. -/
def pathRelative (f t : String) : String :=
  let fs := absSegs f
  let ts := absSegs t
  let c := commonLen fs ts
  joinSegs (List.replicate (fs.length - c) ".." ++ ts.drop c)

/- ---------------- Path Sandbox (src/unnamed/part_000) ---------------- -/

/-- `resolveSafe` (rev A, part_000:32-43):
strip leading separators from the candidate (so an apparently-absolute
candidate is reinterpreted as relative to the root), resolve against the
workspace root and require the result to equal the normalized root or to
have the normalized root plus a separator as a literal prefix.
`rel || '.'` maps the empty candidate to `"."`; the source's
`resolved + (resolved.endsWith(sep) ? '' : '')` appends the empty string
either way, so `resolvedNormalized` is `resolved` itself. -/
def resolveSafe (root rel : String) : Except String String :=
  let sanitizedRel := stripLeadingSlashes (if rel = "" then "." else rel)
  let resolved := pathResolve root sanitizedRel
  let rootNormalized := normalizeAbs root ++ "/"
  if ¬ jsStartsWith resolved rootNormalized = true ∧ resolved ≠ normalizeAbs root then
    .error "Path outside workspace root is not allowed"
  else
    .ok resolved

/-- `toRel` (rev A, part_000:46-49): make an absolute path workspace
relative for display; the empty relative path becomes `"."`
(`replaceAll(path.sep, '/')` is the identity on posix). -/
def toRel (root absPath : String) : String :=
  let rel := pathRelative root absPath
  if rel = "" then "." else rel

/-- Result record of `resolveWorkspacePath` (rev B). -/
structure WsResolved where
  projectRoot : String
  resolved : String
  deriving DecidableEq, Repr

/-- `resolveWorkspacePath` (rev B, part_000:266-277):
reject an empty project name, strip the project name to its base
component, derive the project root with `path.resolve`, resolve the
candidate against it (`rel || '.'`), and require the result to have the
project root as a literal string prefix — note: the prefix check is
`resolved.startsWith(projectRoot)` with no trailing separator. -/
def resolveWorkspacePath (root project rel : String) : Except String WsResolved :=
  if project = "" then .error "project name required"
  else
    let sanitizedProject := pathBasename project
    let projectRoot := pathResolve root sanitizedProject
    let resolved := pathResolve projectRoot (if rel = "" then "." else rel)
    if ¬ jsStartsWith resolved projectRoot = true then
      .error "Invalid path (outside project)"
    else
      .ok { projectRoot := projectRoot, resolved := resolved }

/- ---------------- Terminal Session: inbound message protocol ---------------- -/

/-- Observable effect of one inbound frame on the pty in the part_000
revisions: the arguments passed to `ptyProcess.resize`, and the string
passed to `ptyProcess.write`, if any. -/
structure MsgEffect where
  resizeArgs : Option (JVal × JVal)
  written : Option String

/-- Observable effect of one inbound frame in the `server.js` revision;
there `resize` receives the raw, possibly-undefined `cols`/`rows`. -/
structure MsgEffectS where
  resizeArgs : Option (Option JVal × Option JVal)
  written : Option String

/-- Inbound message handler of the part_000 revisions
(part_000:217-227 and part_000:503-515):
`try` to parse the frame; a truthy parse whose `type` is `'resize'`
resizes to `cols || 80` and `rows || 24` and returns; every other frame —
including any parse failure — falls through to `ptyProcess.write` with the
raw message text.  `parsed` is the outcome of `JSON.parse(msg)`
(`none` when the parse throws). -/
def handleMessage (msg : String) (parsed : Option JVal) : MsgEffect :=
  match parsed with
  | none => { resizeArgs := none, written := some msg }
  | some v =>
    match v.getField "type" with
    | some (.str t) =>
      if v.truthy && t == "resize" then
        { resizeArgs := some (jsOr (v.getField "cols") (.num 80), jsOr (v.getField "rows") (.num 24)),
          written := none }
      else
        { resizeArgs := none, written := some msg }
    | _ => { resizeArgs := none, written := some msg }

/-- Inbound message handler of the `server.js` revision (server.js:56-65):
`try { const data = JSON.parse(msg); if (data.type === 'resize')
resize(data.cols, data.rows); } catch { write(msg); }`.
A parse failure is written raw from the `catch`; parsing to `null` makes
the `data.type` access throw, which the `catch` also turns into a raw
write; but a frame that parses to any other non-resize JSON value runs
neither branch — nothing is written. -/
def handleMessageServer (msg : String) (parsed : Option JVal) : MsgEffectS :=
  match parsed with
  | none => { resizeArgs := none, written := some msg }
  | some .null => { resizeArgs := none, written := some msg }
  | some v =>
    match v.getField "type" with
    | some (.str t) =>
      if t == "resize" then
        { resizeArgs := some (v.getField "cols", v.getField "rows"), written := none }
      else
        { resizeArgs := none, written := none }
    | _ => { resizeArgs := none, written := none }

/- ---------------- Terminal Session: lifecycle state machine ---------------- -/

/-- State of one terminal session: connection open, process alive, number
of termination signals sent to the process, frames delivered to the
connection, bytes written to the pty, and the pty dimensions last applied
(initially the spawn constants 80×24). -/
structure Sess where
  wsOpen : Bool
  procAlive : Bool
  kills : Nat
  sent : List String
  writes : List String
  dims : JVal × JVal

/-- A fresh session right after `pty.spawn` (all revisions spawn with
`cols: 80, rows: 24`). -/
def initSess : Sess :=
  { wsOpen := true, procAlive := true, kills := 0, sent := [], writes := [],
    dims := (.num 80, .num 24) }

/-- Events a live session reacts to.  `wsClose` is the connection closing
(in a live session only the peer closes it — the source never calls
`ws.close()` after the session is created); `procExit` is the shell
process exiting on its own. -/
inductive Ev where
  | procData (chunk : String)
  | wsMsg (msg : String) (parsed : Option JVal)
  | wsClose
  | procExit

/-- One event step of a part_000-revision session, from the handlers
registered at part_000:499-520 (rev B; rev A at 213-232 is identical):
* `onData`: `try { ws.send(data) } catch {}` — frames reach the peer only
  while the connection is open (`ws.send` without a callback discards
  frames on a closed socket, and the `try/catch` swallows any error);
* `message`: route through `handleMessage`;
* `close`: the event fires once; the handler is
  `try { ptyProcess.kill() } catch (e) {}` — the signal reaches the
  process if it is still alive, and a kill error (e.g. the process
  already exited) is swallowed;
* the source registers NO `onExit` handler for the pty process, so a
  `procExit` event changes nothing but the process state. -/
def stepB (s : Sess) : Ev → Sess
  | .procData c => if s.wsOpen then { s with sent := s.sent ++ [c] } else s
  | .wsMsg m p =>
    let eff := handleMessage m p
    { s with writes := s.writes ++ eff.written.toList, dims := eff.resizeArgs.getD s.dims }
  | .wsClose =>
    if s.wsOpen then
      { s with wsOpen := false,
               kills := if s.procAlive then s.kills + 1 else s.kills,
               procAlive := false }
    else s
  | .procExit => { s with procAlive := false }

/-- Run a part_000-revision session over a list of events. -/
def runB (s : Sess) : List Ev → Sess
  | [] => s
  | e :: rest => runB (stepB s e) rest

/-- `server.js:53` — `ptyProcess.onData(data => ws.send(data))`: the chunk
reaches the peer only while the connection is open (`ws.send` without a
callback silently discards frames on a closed socket). -/
def onDataServer (s : Sess) (c : String) : Sess :=
  if s.wsOpen then { s with sent := s.sent ++ [c] } else s

/-- `server.js:68-71` — the close handler calls `ptyProcess.kill()` with
no `try/catch`: if the process already exited the kill throws and the
error propagates out of the handler. -/
def closeServer (s : Sess) : Except String Sess :=
  if s.procAlive then
    .ok { s with wsOpen := false, procAlive := false, kills := s.kills + 1 }
  else
    .error "kill of exited process"

/-- The source keeps no explicit session table: the live-session set is
the set of connections whose handler closures are still attached, i.e.
the open connections.  A session is in the registry iff its connection is
open. -/
def inRegistry (s : Sess) : Bool := s.wsOpen

/-- The process-output chunks a trace delivers to the connection: exactly
the `procData` chunks that fire while the connection is open, in order. -/
def outputsWhileOpen (s : Sess) : List Ev → List String
  | [] => []
  | e :: rest =>
    (match e with
     | .procData c => if s.wsOpen then [c] else []
     | _ => []) ++ outputsWhileOpen (stepB s e) rest

/- ---------------- Connection Acceptor ---------------- -/

/-- A `pty.spawn` call: working directory and initial dimensions. -/
structure SpawnCall where
  cwd : String
  cols : Nat
  rows : Nat
  deriving DecidableEq, Repr

/-- Observable outcome of accepting one connection: the frames sent while
accepting, whether the acceptor closed the connection, and the spawn call
if one was made. -/
structure AcceptOutcome where
  sentFrames : List String
  closedConn : Bool
  spawned : Option SpawnCall
  deriving DecidableEq, Repr

/-- Project-scoped acceptor (server.js:27-47 and rev B part_000:475-496,
identical logic): `project` query parameter defaulting to `'default'`,
project directory `path.join(root, path.basename(project))`; if it does
not exist, send one `Project ... not found.` frame and close — otherwise
spawn the shell there with `cols: 80, rows: 24`. -/
def acceptProject (fsE : String → Bool) (root : String) (q : Option String) : AcceptOutcome :=
  let project := jsOrStr q "default"
  let projectDir := pathJoin root (pathBasename project)
  if fsE projectDir = false then
    { sentFrames := ["Project '" ++ project ++ "' not found."], closedConn := true, spawned := none }
  else
    { sentFrames := [], closedConn := false, spawned := some ⟨projectDir, 80, 24⟩ }

/-- Rev A acceptor (part_000:189-211): `path` query parameter defaulting
to `'.'`, resolved through `resolveSafe`; the whole handler is wrapped in
`try/catch`, so a sandbox rejection becomes one `Server error` frame and
closure; a resolved path that does not exist yields one
`Path ... not found.` frame and closure; otherwise the shell is spawned
there with `cols: 80, rows: 24`. -/
def acceptA (fsE : String → Bool) (root : String) (q : Option String) : AcceptOutcome :=
  let relPath := jsOrStr q "."
  match resolveSafe root relPath with
  | .error _ => { sentFrames := ["Server error"], closedConn := true, spawned := none }
  | .ok projectDir =>
    if fsE projectDir = false then
      { sentFrames := ["Path '" ++ relPath ++ "' not found."], closedConn := true, spawned := none }
    else
      { sentFrames := [], closedConn := false, spawned := some ⟨projectDir, 80, 24⟩ }

/-- The resize arguments an event applies in a part_000-revision session,
if it is a resize control message. -/
def resizeOf : Ev → Option (JVal × JVal)
  | .wsMsg m p => (handleMessage m p).resizeArgs
  | _ => none

/- ---------------- toolkit lemmas ---------------- -/

/-- A path segment as produced by legitimate construction: nonempty, not a
dot segment, and containing no separator. -/
def isCleanSeg (s : String) : Bool :=
  s != "" && s != "." && s != ".." && s.data.all (fun c => c != '/')

theorem string_data_append (a b : String) : (a ++ b).data = a.data ++ b.data := by
  cases a; cases b; rfl

theorem string_mk_data (s : String) : String.mk s.data = s := rfl

theorem string_ne_empty_of_data_ne_nil {s : String} (h : s.data ≠ []) : s ≠ "" := by
  intro e; exact h (by rw [e])

theorem splitSegsAux_append (l₁ l₂ : List Char) :
    ∀ acc, splitSegsAux (l₁ ++ '/' :: l₂) acc = splitSegsAux l₁ acc ++ splitSegsAux l₂ [] := by
  induction l₁ with
  | nil => intro acc; simp [splitSegsAux]
  | cons c cs ih =>
    intro acc
    by_cases hc : c = '/'
    · subst hc; simp [splitSegsAux, ih]
    · simp [splitSegsAux, hc, ih]

theorem splitSegs_append (a b : String) :
    splitSegs (a ++ "/" ++ b) = splitSegs a ++ splitSegs b := by
  have : (a ++ "/" ++ b).data = a.data ++ '/' :: b.data := by
    rw [string_data_append, string_data_append, List.append_assoc]; rfl
  simp [splitSegs, this, splitSegsAux_append]

theorem splitSegsAux_no_slash (l : List Char) :
    ∀ acc, (∀ c ∈ l, c ≠ '/') → splitSegsAux l acc = [⟨acc.reverse ++ l⟩] := by
  induction l with
  | nil => intro acc _; simp [splitSegsAux]
  | cons c cs ih =>
    intro acc h
    have hc : c ≠ '/' := h c (by simp)
    have := ih (c :: acc) (fun x hx => h x (by simp [hx]))
    simp [splitSegsAux, hc, this]

theorem splitSegs_no_slash (s : String) (h : ∀ c ∈ s.data, c ≠ '/') :
    splitSegs s = [s] := by
  simp [splitSegs, splitSegsAux_no_slash s.data [] h, string_mk_data]

theorem joinSegs_cons (s : String) (rest : List String) (h : rest ≠ []) :
    joinSegs (s :: rest) = s ++ "/" ++ joinSegs rest := by
  cases rest with
  | nil => exact absurd rfl h
  | cons r tail => rfl

theorem joinSegs_append (a b : List String) (ha : a ≠ []) (hb : b ≠ []) :
    joinSegs (a ++ b) = joinSegs a ++ "/" ++ joinSegs b := by
  induction a with
  | nil => exact absurd rfl ha
  | cons x xs ih =>
    cases xs with
    | nil => simp [joinSegs_cons x b hb, joinSegs]
    | cons y ys =>
      have hxs : y :: ys ≠ [] := by simp
      have happ : (y :: ys) ++ b ≠ [] := by simp
      calc joinSegs (x :: (y :: ys) ++ b)
          = x ++ "/" ++ joinSegs ((y :: ys) ++ b) := joinSegs_cons _ _ happ
        _ = x ++ "/" ++ (joinSegs (y :: ys) ++ "/" ++ joinSegs b) := by rw [ih hxs]
        _ = (x ++ "/" ++ joinSegs (y :: ys)) ++ "/" ++ joinSegs b := by
              simp [String.append_assoc]
        _ = joinSegs (x :: y :: ys) ++ "/" ++ joinSegs b := by rw [joinSegs_cons x (y :: ys) hxs]

theorem clean_parts {s : String} (h : isCleanSeg s = true) :
    s ≠ "" ∧ s ≠ "." ∧ s ≠ ".." ∧ ∀ c ∈ s.data, c ≠ '/' := by
  simp only [isCleanSeg, Bool.and_eq_true, bne_iff_ne, List.all_eq_true, decide_eq_true_eq] at h
  exact ⟨h.1.1.1, h.1.1.2, h.1.2, h.2⟩

theorem clean_no_slash {s : String} (h : isCleanSeg s = true) : ∀ c ∈ s.data, c ≠ '/' :=
  (clean_parts h).2.2.2

theorem clean_ne_empty {s : String} (h : isCleanSeg s = true) : s ≠ "" :=
  (clean_parts h).1

theorem splitSegs_joinSegs (segs : List String) (hne : segs ≠ [])
    (h : ∀ s ∈ segs, ∀ c ∈ s.data, c ≠ '/') : splitSegs (joinSegs segs) = segs := by
  induction segs with
  | nil => exact absurd rfl hne
  | cons x xs ih =>
    cases xs with
    | nil => exact splitSegs_no_slash x (h x (by simp))
    | cons y ys =>
      have hxs : y :: ys ≠ [] := by simp
      rw [joinSegs_cons x (y :: ys) hxs, splitSegs_append,
          splitSegs_no_slash x (h x (by simp)), ih hxs (fun s hs => h s (by simp [hs]))]
      rfl

theorem foldl_processSeg_clean (segs : List String) :
    ∀ acc, (∀ s ∈ segs, isCleanSeg s = true) → List.foldl processSeg acc segs = acc ++ segs := by
  induction segs with
  | nil => intro acc _; simp
  | cons x xs ih =>
    intro acc h
    have hx := clean_parts (h x (by simp))
    have hstep : processSeg acc x = acc ++ [x] := by
      simp [processSeg, hx.1, hx.2.1, hx.2.2.1]
    simp only [List.foldl_cons, hstep]
    rw [ih (acc ++ [x]) (fun s hs => h s (by simp [hs]))]
    simp

theorem commonLen_self_append (l m : List String) : commonLen l (l ++ m) = l.length := by
  induction l with
  | nil => cases m <;> simp [commonLen]
  | cons x xs ih => simp [commonLen, ih]

theorem splitSegs_slash_prepend (s : String) : splitSegs ("/" ++ s) = "" :: splitSegs s := by
  have h : ("/" ++ s).data = '/' :: s.data := by rw [string_data_append]; rfl
  simp [splitSegs, h, splitSegsAux]

theorem absSegs_append (a b : String) :
    absSegs (a ++ "/" ++ b) = (splitSegs b).foldl processSeg (absSegs a) := by
  simp [absSegs, splitSegs_append, List.foldl_append]

theorem strip_slash_prepend (rel : String) :
    stripLeadingSlashes ("/" ++ rel) = stripLeadingSlashes rel := by
  have h : ("/" ++ rel).data = '/' :: rel.data := by rw [string_data_append]; rfl
  simp [stripLeadingSlashes, h, List.dropWhile]

theorem data_ne_nil_of_clean {s : String} (h : isCleanSeg s = true) : s.data ≠ [] := by
  intro hd
  exact clean_ne_empty h (by rw [← string_mk_data s, hd])

theorem clean_join_head (segs : List String) (hne : segs ≠ [])
    (hc : ∀ s ∈ segs, isCleanSeg s = true) :
    ∃ c cs, (joinSegs segs).data = c :: cs ∧ c ≠ '/' := by
  cases segs with
  | nil => exact absurd rfl hne
  | cons x xs =>
    have hx := hc x (by simp)
    obtain ⟨c, cs, hd⟩ : ∃ c cs, x.data = c :: cs := by
      cases hcase : x.data with
      | nil => exact absurd hcase (data_ne_nil_of_clean hx)
      | cons c cs => exact ⟨c, cs, rfl⟩
    have hcslash : c ≠ '/' := clean_no_slash hx c (by rw [hd]; simp)
    cases xs with
    | nil => exact ⟨c, cs, hd, hcslash⟩
    | cons y ys =>
      refine ⟨c, cs ++ ('/' :: (joinSegs (y :: ys)).data), ?_, hcslash⟩
      rw [joinSegs_cons x (y :: ys) (by simp), string_data_append, string_data_append, hd]
      simp

theorem clean_join_ne_empty (segs : List String) (hne : segs ≠ [])
    (hc : ∀ s ∈ segs, isCleanSeg s = true) : joinSegs segs ≠ "" := by
  obtain ⟨c, cs, hd, _⟩ := clean_join_head segs hne hc
  exact string_ne_empty_of_data_ne_nil (by rw [hd]; simp)

theorem strip_of_head_ne (s : String) (c : Char) (cs : List Char)
    (hd : s.data = c :: cs) (hc : c ≠ '/') : stripLeadingSlashes s = s := by
  have : stripLeadingSlashes s = ⟨s.data⟩ := by
    simp [stripLeadingSlashes, hd, List.dropWhile, hc]
  rw [this, string_mk_data]

theorem jsStartsWith_slash_false (s : String) (c : Char) (cs : List Char)
    (hd : s.data = c :: cs) (hc : c ≠ '/') : jsStartsWith s "/" = false := by
  have : ("/" : String).data = ['/'] := rfl
  simp [jsStartsWith, this, hd, List.isPrefixOf, Ne.symm hc]

theorem jsStartsWith_append (a b : String) : jsStartsWith (a ++ b) a = true := by
  rw [jsStartsWith, string_data_append]
  exact List.isPrefixOf_iff_prefix.mpr (List.prefix_append a.data b.data)

/-- Normalization of a root built from clean segments is the identity. -/
theorem normalizeAbs_clean_root (rsegs : List String) (hne : rsegs ≠ [])
    (hc : ∀ s ∈ rsegs, isCleanSeg s = true) :
    normalizeAbs ("/" ++ joinSegs rsegs) = "/" ++ joinSegs rsegs := by
  have hsplit : splitSegs ("/" ++ joinSegs rsegs) = "" :: rsegs := by
    rw [splitSegs_slash_prepend, splitSegs_joinSegs rsegs hne (fun s hs => clean_no_slash (hc s hs))]
  rw [normalizeAbs, absSegs, hsplit]
  simp only [List.foldl_cons]
  rw [show processSeg [] "" = [] from rfl, foldl_processSeg_clean rsegs [] hc]
  simp

theorem absSegs_clean_root (rsegs : List String) (hne : rsegs ≠ [])
    (hc : ∀ s ∈ rsegs, isCleanSeg s = true) :
    absSegs ("/" ++ joinSegs rsegs) = rsegs := by
  have hsplit : splitSegs ("/" ++ joinSegs rsegs) = "" :: rsegs := by
    rw [splitSegs_slash_prepend, splitSegs_joinSegs rsegs hne (fun s hs => clean_no_slash (hc s hs))]
  rw [absSegs, hsplit]
  simp only [List.foldl_cons]
  rw [show processSeg [] "" = [] from rfl, foldl_processSeg_clean rsegs [] hc]
  simp

theorem absSegs_clean_descendant (rsegs tsegs : List String)
    (hr : rsegs ≠ []) (ht : tsegs ≠ [])
    (hrc : ∀ s ∈ rsegs, isCleanSeg s = true) (htc : ∀ s ∈ tsegs, isCleanSeg s = true) :
    absSegs (("/" ++ joinSegs rsegs) ++ "/" ++ joinSegs tsegs) = rsegs ++ tsegs := by
  rw [absSegs_append, splitSegs_joinSegs tsegs ht (fun s hs => clean_no_slash (htc s hs)),
      absSegs_clean_root rsegs hr hrc, foldl_processSeg_clean tsegs rsegs htc]

/-- `resolveSafe`'s only use of the candidate, once the leading separators
are stripped: resolve it against the root and apply the containment guard. -/
theorem resolveSafe_strip_eq (root a b : String)
    (h : stripLeadingSlashes (if a = "" then "." else a)
       = stripLeadingSlashes (if b = "" then "." else b)) :
    resolveSafe root a = resolveSafe root b := by
  simp only [resolveSafe, h]

theorem pathResolve_empty_eq_dot (root : String) :
    pathResolve root "" = pathResolve root "." := by
  have h1 : pathResolve root "" = normalizeAbs (root ++ "/" ++ "") := rfl
  have h2 : pathResolve root "." = normalizeAbs (root ++ "/" ++ ".") := rfl
  rw [h1, h2, normalizeAbs, normalizeAbs, absSegs_append, absSegs_append]
  rfl


/- ---------------- session machine lemmas ---------------- -/

theorem stepB_closed_preserves (s : Sess) (e : Ev) (h : s.wsOpen = false) :
    (stepB s e).wsOpen = false ∧ (stepB s e).kills = s.kills := by
  cases e <;> simp [stepB, h]

theorem runB_closed_preserves (evs : List Ev) :
    ∀ s : Sess, s.wsOpen = false →
      (runB s evs).wsOpen = false ∧ (runB s evs).kills = s.kills := by
  induction evs with
  | nil => intro s h; exact ⟨h, rfl⟩
  | cons e rest ih =>
    intro s h
    obtain ⟨h1, h2⟩ := stepB_closed_preserves s e h
    obtain ⟨h3, h4⟩ := ih (stepB s e) h1
    exact ⟨h3, by rw [runB, h4, h2]⟩

theorem stepB_wsOpen_of_ne_close (s : Sess) (e : Ev) (h : e ≠ Ev.wsClose) :
    (stepB s e).wsOpen = s.wsOpen := by
  cases e with
  | procData c => by_cases hw : s.wsOpen <;> simp [stepB, hw]
  | wsMsg m p => simp [stepB]
  | wsClose => exact absurd rfl h
  | procExit => simp [stepB]

theorem stepB_sent (s : Sess) (e : Ev) :
    (stepB s e).sent
      = s.sent ++ (match e with
                   | .procData c => if s.wsOpen then [c] else []
                   | _ => []) := by
  cases e with
  | procData c => by_cases hw : s.wsOpen <;> simp [stepB, hw]
  | wsMsg m p => simp [stepB]
  | wsClose => by_cases hw : s.wsOpen <;> simp [stepB, hw]
  | procExit => simp [stepB]

/- ---------------- claim theorems ---------------- -/

/-- Any value `resolveSafe` returns equals the normalized workspace root
or has the normalized root plus a separator as a literal prefix — the
guard of rev A enforces exactly the containment the specification
describes. -/
theorem resolveSafe_contained (root rel r : String) (h : resolveSafe root rel = .ok r) :
    jsStartsWith r (normalizeAbs root ++ "/") = true ∨ r = normalizeAbs root := by
  simp only [resolveSafe] at h
  set q := pathResolve root (stripLeadingSlashes (if rel = "" then "." else rel)) with hq
  by_cases hc : ¬ jsStartsWith q (normalizeAbs root ++ "/") = true ∧ q ≠ normalizeAbs root
  · rw [if_pos hc] at h
    exact absurd h (by simp)
  · rw [if_neg hc] at h
    rw [Except.ok.injEq] at h
    subst h
    rcases not_and_or.mp hc with h1 | h2
    · exact Or.inl (not_not.mp h1)
    · exact Or.inr (not_not.mp h2)

/-- C1: the claim that both resolve functions only ever return the
containment root or a proper descendant of it fails on
`resolveWorkspacePath`: its containment check is a bare string-prefix
test with no trailing separator.  With workspace root `/ws`, project
`a` and candidate `../ab` it returns `/ws/ab` — a sibling of the project
root `/ws/a`, not the root and not a proper descendant — and with
project `..` (whose basename is still `..`) the derived project root is
`/`, so the absolute candidate `/etc/passwd` is returned, escaping the
workspace root entirely. -/
theorem c1_prefix_check_escape :
    resolveWorkspacePath "/ws" "a" "../ab"
        = .ok { projectRoot := "/ws/a", resolved := "/ws/ab" }
  ∧ jsStartsWith "/ws/ab" ("/ws/a" ++ "/") = false
  ∧ ("/ws/ab" : String) ≠ "/ws/a"
  ∧ resolveWorkspacePath "/ws" ".." "/etc/passwd"
        = .ok { projectRoot := "/", resolved := "/etc/passwd" }
  ∧ jsStartsWith "/etc/passwd" ("/ws" ++ "/") = false :=
  ⟨rfl, rfl, by decide, rfl, rfl⟩

/-- C2: the claim that every non-resize inbound frame is forwarded
verbatim fails on the `server.js` revision: a frame such as `123` parses
as valid JSON whose `type` is not `'resize'`, so neither the resize
branch nor the `catch` fires and nothing is written to the shell; the
part_000 revisions fall through and do forward the same frame
verbatim. -/
theorem c2_server_drops_json_input :
    handleMessageServer "123" (some (.num 123)) = { resizeArgs := none, written := none }
  ∧ handleMessage "123" (some (.num 123)) = { resizeArgs := none, written := some "123" } :=
  ⟨rfl, rfl⟩

/-- C3 counterexample: after the shell process exits on its own
(`procExit`) and a buffered chunk is still delivered, the connection is
still open — no revision registers a process-exit handler, so the
session never closes the connection, contradicting the claim. -/
theorem c3_no_close_on_exit_counterexample :
    (runB initSess [Ev.procExit, Ev.procData "bye"]).wsOpen = true
  ∧ (runB initSess [Ev.procExit, Ev.procData "bye"]).procAlive = false
  ∧ (runB initSess [Ev.procExit, Ev.procData "bye"]).sent = ["bye"] :=
  ⟨rfl, rfl, rfl⟩

/-- C3 amended: the shell process exiting on its own changes nothing but
the process state (no exit handler is registered), output produced
afterwards is still delivered while the connection is open, and as long
as the peer does not close the connection it stays open. -/
theorem c3_exit_leaves_connection_open :
    (∀ s : Sess, stepB s Ev.procExit = { s with procAlive := false })
  ∧ (∀ (evs : List Ev) (s : Sess), (∀ e ∈ evs, e ≠ Ev.wsClose) → s.wsOpen = true →
      (runB s evs).wsOpen = true) := by
  constructor
  · intro s; rfl
  · intro evs
    induction evs with
    | nil => intro s _ h; exact h
    | cons e rest ih =>
      intro s hne h
      have hstep : (stepB s e).wsOpen = true := by
        rw [stepB_wsOpen_of_ne_close s e (hne e (by simp))]; exact h
      exact ih (stepB s e) (fun e' he' => hne e' (by simp [he'])) hstep

theorem c3_exit_leaves_connection_open_witness :
    stepB initSess Ev.procExit = { initSess with procAlive := false }
  ∧ (runB (stepB initSess Ev.procExit) [Ev.procData "x"]).wsOpen = true :=
  ⟨c3_exit_leaves_connection_open.1 initSess,
   c3_exit_leaves_connection_open.2 [Ev.procData "x"] (stepB initSess Ev.procExit)
     (fun e he => by
        rcases List.mem_singleton.mp he with rfl
        exact fun hh => nomatch hh) rfl⟩

/-- C4 counterexample: the claim that both resolvers strip leading
separators and reinterpret an absolute candidate as relative to the
containment root fails on `resolveWorkspacePath`: for `/etc/passwd` it
rejects instead of resolving inside the project root, while `resolveSafe`
does reinterpret the same candidate under the workspace root. -/
theorem c4_no_strip_in_project_variant :
    resolveWorkspacePath "/ws" "a" "/etc/passwd" = .error "Invalid path (outside project)"
  ∧ resolveSafe "/ws" "/etc/passwd" = .ok "/ws/etc/passwd" :=
  ⟨rfl, rfl⟩

/-- `resolveSafe` is determined by the resolved value of the sanitized
candidate. -/
theorem resolveSafe_resolved_eq (root a b : String)
    (h : pathResolve root (stripLeadingSlashes (if a = "" then "." else a))
       = pathResolve root (stripLeadingSlashes (if b = "" then "." else b))) :
    resolveSafe root a = resolveSafe root b := by
  simp only [resolveSafe, h]

/-- C4 amended: `resolveSafe` strips leading separators — prefixing any
candidate with a separator never changes its result, so an
apparently-absolute candidate is reinterpreted as relative to the
workspace root; `resolveWorkspacePath` performs no such stripping: an
absolute candidate resolves to its own normalization, independent of the
project root, and is accepted only if that value passes the bare
string-prefix containment check, otherwise rejected. -/
theorem c4_amended_absolute_handling :
    (∀ root rel : String, resolveSafe root ("/" ++ rel) = resolveSafe root rel)
  ∧ (∀ root project rel : String, project ≠ "" → jsStartsWith rel "/" = true →
      resolveWorkspacePath root project rel =
        (if jsStartsWith (normalizeAbs rel) (pathResolve root (pathBasename project)) = true then
           .ok { projectRoot := pathResolve root (pathBasename project),
                 resolved := normalizeAbs rel }
         else .error "Invalid path (outside project)")) := by
  constructor
  · intro root rel
    by_cases h : rel = ""
    · subst h
      exact resolveSafe_resolved_eq root ("/" ++ "") "" (pathResolve_empty_eq_dot root)
    · have hd : ("/" ++ rel).data = '/' :: rel.data := by rw [string_data_append]; rfl
      have hne : ("/" ++ rel) ≠ "" := string_ne_empty_of_data_ne_nil (by rw [hd]; simp)
      apply resolveSafe_resolved_eq
      rw [if_neg hne, if_neg h, strip_slash_prepend]
  · intro root project rel hproj habs
    have hrelne : rel ≠ "" := by
      intro he; rw [he] at habs; exact absurd habs (by decide)
    simp only [resolveWorkspacePath, if_neg hproj, if_neg hrelne, pathResolve, habs, if_true]
    by_cases hg : jsStartsWith (normalizeAbs rel)
        (if jsStartsWith (pathBasename project) "/" = true then normalizeAbs (pathBasename project)
         else normalizeAbs (root ++ "/" ++ pathBasename project)) = true
    · simp [hg]
    · simp [hg]

theorem c4_amended_absolute_handling_witness :
    resolveSafe "/ws" ("/" ++ "etc/passwd") = resolveSafe "/ws" "etc/passwd"
  ∧ resolveWorkspacePath "/ws" "a" "/x" = .error "Invalid path (outside project)" :=
  ⟨c4_amended_absolute_handling.1 "/ws" "etc/passwd",
   c4_amended_absolute_handling.2 "/ws" "a" "/x" (by decide) rfl⟩

/-- C5 counterexample: a resize message whose `cols` is the non-numeric
string `"abc"` does not get the default `80` — `parsed.cols || 80` keeps
any truthy value, so the string is passed through to the resize call. -/
theorem c5_nonnumeric_cols_not_defaulted :
    handleMessage "\x7b\"type\":\"resize\",\"cols\":\"abc\"\x7d"
        (some (.obj [("type", .str "resize"), ("cols", .str "abc")]))
      = { resizeArgs := some (.str "abc", .num 24), written := none }
  ∧ JVal.str "abc" ≠ JVal.num 80 :=
  ⟨rfl, fun h => nomatch h⟩

/-- C5 amended: in the part_000 revisions a parsed resize message updates
the dimensions to `cols || 80` and `rows || 24` and is not forwarded to
the shell; `||` substitutes the default exactly when the field is absent
or falsy (`null`, `false`, `0`, `""`), and passes any truthy value —
numeric or not — through unchanged.  In the `server.js` revision the raw
`cols`/`rows` values are passed with no defaulting at all, and the
message is likewise not forwarded. -/
theorem c5_resize_defaults :
    (∀ (msg : String) (v : JVal), v.truthy = true →
       v.getField "type" = some (.str "resize") →
       handleMessage msg (some v) =
         { resizeArgs := some (jsOr (v.getField "cols") (.num 80),
                               jsOr (v.getField "rows") (.num 24)),
           written := none })
  ∧ (∀ d : JVal, jsOr none d = d)
  ∧ (∀ w d : JVal, w.truthy = false → jsOr (some w) d = d)
  ∧ (∀ w d : JVal, w.truthy = true → jsOr (some w) d = w)
  ∧ (∀ (msg : String) (v : JVal), v ≠ .null →
       v.getField "type" = some (.str "resize") →
       handleMessageServer msg (some v) =
         { resizeArgs := some (v.getField "cols", v.getField "rows"), written := none }) := by
  refine ⟨?_, ?_, ?_, ?_, ?_⟩
  · intro msg v ht hg
    simp [handleMessage, hg, ht]
  · intro d; rfl
  · intro w d h; simp [jsOr, h]
  · intro w d h; simp [jsOr, h]
  · intro msg v hnn hg
    cases v with
    | null => exact absurd rfl hnn
    | obj fields => simp [handleMessageServer, JVal.getField] at hg ⊢; simp [hg]
    | bool b => exact absurd hg (by simp [JVal.getField])
    | num n => exact absurd hg (by simp [JVal.getField])
    | str s => exact absurd hg (by simp [JVal.getField])
    | arr elems => exact absurd hg (by simp [JVal.getField])

theorem c5_resize_defaults_witness :
    handleMessage "m" (some (.obj [("type", .str "resize")]))
      = { resizeArgs := some (.num 80, .num 24), written := none }
  ∧ handleMessageServer "m" (some (.obj [("type", .str "resize")]))
      = { resizeArgs := some (none, none), written := none } :=
  ⟨c5_resize_defaults.1 "m" (.obj [("type", .str "resize")]) rfl rfl,
   c5_resize_defaults.2.2.2.2 "m" (.obj [("type", .str "resize")]) (fun h => nomatch h) rfl⟩

/-- C6: closing the connection while the shell process is still running
sends the process exactly one termination signal — the count rises to one
at the close and stays one under any further events, because the close
event cannot re-fire and no other handler signals the process — and the
session is no longer in the (implicit) registry of live sessions from
that point on.  A kill error (process already exited) is swallowed by the
part_000 close handler, which still completes and closes the session; in
`server.js` a close while the process runs also delivers exactly one
signal without surfacing an error. -/
theorem c6_close_kills_once :
    ∀ s : Sess, s.wsOpen = true → s.procAlive = true →
      (stepB s Ev.wsClose).kills = s.kills + 1
    ∧ inRegistry (stepB s Ev.wsClose) = false
    ∧ (∀ evs : List Ev, (runB (stepB s Ev.wsClose) evs).kills = s.kills + 1
         ∧ inRegistry (runB (stepB s Ev.wsClose) evs) = false)
    ∧ (∀ s' : Sess, s'.wsOpen = true → s'.procAlive = false →
         stepB s' Ev.wsClose = { s' with wsOpen := false })
    ∧ closeServer s = .ok { s with wsOpen := false, procAlive := false, kills := s.kills + 1 } := by
  intro s h1 h2
  have hstep : (stepB s Ev.wsClose).kills = s.kills + 1 := by simp [stepB, h1, h2]
  have hclosed : (stepB s Ev.wsClose).wsOpen = false := by simp [stepB, h1]
  refine ⟨hstep, hclosed, ?_, ?_, ?_⟩
  · intro evs
    obtain ⟨ho, hk⟩ := runB_closed_preserves evs (stepB s Ev.wsClose) hclosed
    exact ⟨by rw [hk, hstep], ho⟩
  · intro s' h1' h2'
    cases s'
    simp at h1' h2'
    simp [stepB, h1', h2']
  · simp [closeServer, h2]

theorem c6_close_kills_once_witness :
    (stepB initSess Ev.wsClose).kills = 1
  ∧ inRegistry (stepB initSess Ev.wsClose) = false
  ∧ closeServer initSess
      = .ok { initSess with wsOpen := false, procAlive := false, kills := 1 } := by
  have h := c6_close_kills_once initSess rfl rfl
  exact ⟨h.1, h.2.1, h.2.2.2.2⟩

/-- C7: over any trace, the frames delivered to the connection are exactly
the process-output chunks produced while the connection is open, verbatim
and in order; a chunk produced when the connection is already closed is a
no-op for both the part_000 handler (`try { ws.send } catch {}`) and the
`server.js` handler (`ws.send` silently discards frames on a closed
socket), and an open connection receives each chunk unmodified, appended
in order. -/
theorem c7_output_forwarding :
    (∀ (s : Sess) (evs : List Ev), (runB s evs).sent = s.sent ++ outputsWhileOpen s evs)
  ∧ (∀ (s : Sess) (c : String), s.wsOpen = false →
       stepB s (Ev.procData c) = s ∧ onDataServer s c = s)
  ∧ (∀ (s : Sess) (c : String), s.wsOpen = true →
       (stepB s (Ev.procData c)).sent = s.sent ++ [c]
     ∧ (onDataServer s c).sent = s.sent ++ [c]) := by
  refine ⟨?_, ?_, ?_⟩
  · intro s evs
    induction evs generalizing s with
    | nil => simp [runB, outputsWhileOpen]
    | cons e rest ih =>
      rw [runB, ih (stepB s e), stepB_sent s e]
      cases e <;> simp [outputsWhileOpen]
  · intro s c h
    constructor
    · simp [stepB, h]
    · simp [onDataServer, h]
  · intro s c h
    constructor
    · simp [stepB, h]
    · simp [onDataServer, h]

theorem c7_output_forwarding_witness :
    stepB { initSess with wsOpen := false } (Ev.procData "x") = { initSess with wsOpen := false }
  ∧ (stepB initSess (Ev.procData "x")).sent = ["x"] :=
  ⟨(c7_output_forwarding.2.1 { initSess with wsOpen := false } "x" rfl).1,
   (c7_output_forwarding.2.2 initSess "x" rfl).1⟩

/-- C8: a connection whose requested project (project-scoped acceptors of
`server.js` and rev B) or resolved path (rev A acceptor) does not exist on
disk receives exactly one human-readable diagnostic frame and is closed,
with no shell spawned and hence no session created. -/
theorem c8_not_found_rejects :
    (∀ (fsE : String → Bool) (root : String) (q : Option String),
       fsE (pathJoin root (pathBasename (jsOrStr q "default"))) = false →
       acceptProject fsE root q =
         { sentFrames := ["Project '" ++ jsOrStr q "default" ++ "' not found."],
           closedConn := true, spawned := none })
  ∧ (∀ (fsE : String → Bool) (root : String) (q : Option String) (dir : String),
       resolveSafe root (jsOrStr q ".") = .ok dir → fsE dir = false →
       acceptA fsE root q =
         { sentFrames := ["Path '" ++ jsOrStr q "." ++ "' not found."],
           closedConn := true, spawned := none }) := by
  constructor
  · intro fsE root q h
    simp [acceptProject, h]
  · intro fsE root q dir h hf
    simp [acceptA, h, hf]

theorem c8_not_found_rejects_witness :
    acceptProject (fun _ => false) "/ws" (some "p") =
      { sentFrames := ["Project 'p' not found."], closedConn := true, spawned := none }
  ∧ acceptA (fun _ => false) "/ws" (some "p") =
      { sentFrames := ["Path 'p' not found."], closedConn := true, spawned := none } :=
  ⟨c8_not_found_rejects.1 (fun _ => false) "/ws" (some "p") rfl,
   c8_not_found_rejects.2 (fun _ => false) "/ws" (some "p") "/ws/p" rfl rfl⟩

/-- C10: every spawn performed by any acceptor uses the fixed initial
dimensions `cols = 80`, `rows = 24`, whatever the connection requested —
the acceptors read only the project/path query parameter — and in a live
session the dimensions change only when an inbound frame is routed as a
resize control message. -/
theorem c10_fixed_initial_dims :
    (∀ (fsE : String → Bool) (root : String) (q : Option String) (sc : SpawnCall),
       (acceptProject fsE root q).spawned = some sc → sc.cols = 80 ∧ sc.rows = 24)
  ∧ (∀ (fsE : String → Bool) (root : String) (q : Option String) (sc : SpawnCall),
       (acceptA fsE root q).spawned = some sc → sc.cols = 80 ∧ sc.rows = 24)
  ∧ (∀ (s : Sess) (e : Ev), resizeOf e = none → (stepB s e).dims = s.dims)
  ∧ (∀ (s : Sess) (m : String) (p : Option JVal) (args : JVal × JVal),
       (handleMessage m p).resizeArgs = some args → (stepB s (Ev.wsMsg m p)).dims = args) := by
  refine ⟨?_, ?_, ?_, ?_⟩
  · intro fsE root q sc h
    simp only [acceptProject] at h
    split at h
    · simp at h
    · rw [Option.some.injEq] at h
      subst h
      exact ⟨rfl, rfl⟩
  · intro fsE root q sc h
    simp only [acceptA] at h
    split at h
    · simp at h
    · split at h
      · simp at h
      · rw [Option.some.injEq] at h
        subst h
        exact ⟨rfl, rfl⟩
  · intro s e h
    cases e with
    | procData c => by_cases hw : s.wsOpen <;> simp [stepB, hw]
    | wsMsg m p =>
      simp only [resizeOf] at h
      simp [stepB, h]
    | wsClose => by_cases hw : s.wsOpen <;> simp [stepB, hw]
    | procExit => simp [stepB]
  · intro s m p args h
    simp [stepB, h]

theorem c10_fixed_initial_dims_witness :
    (acceptProject (fun _ => true) "/ws" (some "p")).spawned = some ⟨"/ws/p", 80, 24⟩
  ∧ ((⟨"/ws/p", 80, 24⟩ : SpawnCall).cols = 80 ∧ (⟨"/ws/p", 80, 24⟩ : SpawnCall).rows = 24)
  ∧ (stepB initSess Ev.procExit).dims = initSess.dims :=
  ⟨rfl,
   c10_fixed_initial_dims.1 (fun _ => true) "/ws" (some "p") ⟨"/ws/p", 80, 24⟩ rfl,
   c10_fixed_initial_dims.2.2.1 initSess Ev.procExit rfl⟩

/-- C9: round-trip — for any path `p` that is a normalized proper
descendant of the workspace root (root and the descendant's relative part
built from clean separator-free segments, as legitimate construction
produces), resolving the workspace-relative form `toRel root p` through
`resolveSafe` yields `p` again. -/
theorem c9_roundtrip (rsegs tsegs : List String) (root p : String)
    (hr : rsegs ≠ []) (ht : tsegs ≠ [])
    (hrc : ∀ s ∈ rsegs, isCleanSeg s = true)
    (htc : ∀ s ∈ tsegs, isCleanSeg s = true)
    (hroot : root = "/" ++ joinSegs rsegs)
    (hp : p = root ++ "/" ++ joinSegs tsegs) :
    resolveSafe root (toRel root p) = .ok p := by
  have habs_root : absSegs root = rsegs := by
    rw [hroot]; exact absSegs_clean_root rsegs hr hrc
  have habs_p : absSegs p = rsegs ++ tsegs := by
    rw [hp, hroot]; exact absSegs_clean_descendant rsegs tsegs hr ht hrc htc
  have hrel : pathRelative root p = joinSegs tsegs := by
    simp only [pathRelative, habs_root, habs_p, commonLen_self_append]
    simp [List.drop_left]
  have htoRel : toRel root p = joinSegs tsegs := by
    simp only [toRel, hrel]
    rw [if_neg (clean_join_ne_empty tsegs ht htc)]
  obtain ⟨c, cs, hd, hc⟩ := clean_join_head tsegs ht htc
  have hne : joinSegs tsegs ≠ "" := clean_join_ne_empty tsegs ht htc
  have hstrip : stripLeadingSlashes (joinSegs tsegs) = joinSegs tsegs :=
    strip_of_head_ne _ c cs hd hc
  have hnabs : jsStartsWith (joinSegs tsegs) "/" = false :=
    jsStartsWith_slash_false _ c cs hd hc
  have hresolved : pathResolve root (joinSegs tsegs) = p := by
    simp only [pathResolve, hnabs, Bool.false_eq_true, if_false]
    rw [← hp, normalizeAbs, habs_p, joinSegs_append rsegs tsegs hr ht, hp, hroot]
    simp [String.append_assoc]
  have hnorm_root : normalizeAbs root = root := by
    rw [hroot]; exact normalizeAbs_clean_root rsegs hr hrc
  have hprefix : jsStartsWith p (normalizeAbs root ++ "/") = true := by
    rw [hnorm_root, hp]
    exact jsStartsWith_append (root ++ "/") (joinSegs tsegs)
  have hcond : ¬(¬ jsStartsWith p (normalizeAbs root ++ "/") = true ∧ p ≠ normalizeAbs root) :=
    fun hcc => hcc.1 hprefix
  rw [htoRel]
  simp only [resolveSafe]
  rw [if_neg hne, hstrip, hresolved, if_neg hcond]

theorem c9_roundtrip_witness :
    resolveSafe "/ws" (toRel "/ws" "/ws/a/b") = .ok "/ws/a/b" :=
  c9_roundtrip ["ws"] ["a", "b"] "/ws" "/ws/a/b"
    (by decide) (by decide) (by decide) (by decide) rfl rfl
